import Mathlib

set_option maxRecDepth 10000

/-!
Verification of the audio-spectrogram pipeline of the `personal_website`
repository.

The embedding covers the three pipeline variants the claims refer to:

* `Spectro`  — `src/components/RainforestSpectrogram.tsx` (256-bin height-field
  variant): the windowed frequency analyzer `computeFrequencyData`, the virtual
  playback clock (`time % duration`), and the per-tick commit
  `updateSpectrogram` (spatial kernel blend, temporal blend, history shift,
  write-time frequency-axis flip).
* `P002` — the 64-bin variant (`src/unnamed/part_002`): its commit loop writes
  rows without a frequency-axis flip; only the row-write layout is needed here.
* `P3` — the contour-ribbon variant (`src/unnamed/part_003`):
  `computeSpectrumSegment`, `extractSurfacesForWindow` (window-relative
  normalisation) and the layer-set cross-fade (`blendSurfaces` /
  the self-terminating blend step of `scheduleBlend`).

JavaScript `number` arithmetic is embedded as real arithmetic (`ℝ`);
`Uint8Array` stores truncate through `Int.floor`/`toNat`.  `Math.cos`,
`Math.log10`, `Math.sqrt`, `Math.pow` become `Real.cos`, `Real.logb 10`,
`Real.sqrt` and real rpow.  Sample buffers are `List ℝ`; the indexed
`Float32Array` smoothing stores are functions `ℕ → ℝ`.
-/

namespace Spectro

/-- `FREQUENCY_BINS` of `RainforestSpectrogram.tsx` (line 5). -/
def FREQUENCY_BINS : ℕ := 256

/-- `HISTORY_LENGTH` (line 6). -/
def HISTORY_LENGTH : ℕ := 256

/-- `MIN_DECIBELS` (line 14). -/
def MIN_DECIBELS : ℝ := -90

/-- `MAX_DECIBELS` (line 15). -/
def MAX_DECIBELS : ℝ := -15

/-- `SMOOTHING_CONSTANT` (line 16): the analyzer-level temporal IIR factor. -/
def SMOOTHING_CONSTANT : ℝ := 0.15

/-- `LOW_FREQUENCY_CUTOFF_HZ` (line 17). -/
def LOW_FREQUENCY_CUTOFF_HZ : ℝ := 200

/-- `FREQUENCY_SMOOTH_KERNEL` (line 18). -/
def FREQUENCY_SMOOTH_KERNEL : List ℝ := [0.03, 0.08, 0.15, 0.18, 0.15, 0.08, 0.03]

/-- `FREQUENCY_SMOOTH_MIX` (line 19). -/
def FREQUENCY_SMOOTH_MIX : ℝ := 0.9

/-- `TEMPORAL_SMOOTHING` (line 20). -/
def TEMPORAL_SMOOTHING : ℝ := 0.7

/-- `const fftSize = 2048` inside `computeFrequencyData` (line 180). -/
def fftSize : ℕ := 2048

/-- JavaScript `Math.trunc`-style division used by the `%` operator:
truncation toward zero. -/
noncomputable def jsTrunc (x : ℝ) : ℤ := if 0 ≤ x then ⌊x⌋ else ⌈x⌉

/-- JavaScript `%` on numbers: `a % b = a - b * trunc (a / b)` (finite case).
This is the virtual playback clock's offset operation `time % duration`. -/
noncomputable def jsMod (a b : ℝ) : ℝ := a - b * jsTrunc (a / b)

/-- The virtual clock offset computed at the top of `computeFrequencyData`
(lines 175-177): `offset = (performance.now() / 1000) % buffer.duration`. -/
noncomputable def analyzeOffset (time duration : ℝ) : ℝ := jsMod time duration

/-- The offset computed in `startAudioSource` (lines 385-387) that the real
audio source is started at: `offset = (performance.now() / 1000) % duration`. -/
noncomputable def startSourceOffset (time duration : ℝ) : ℝ := jsMod time duration

/-- `startIndex = Math.floor(offset * sampleRate)` (line 179), with
`duration = samples.length / sampleRate` (the Web Audio `AudioBuffer.duration`).
`performance.now()` is non-negative, so the floor is taken to `ℕ`. -/
noncomputable def startIndexOf (samples : List ℝ) (sr time : ℝ) : ℕ :=
  (⌊analyzeOffset time ((samples.length : ℝ) / sr) * sr⌋).toNat

/-- The Hann window factor `0.5 * (1 - Math.cos((2 * Math.PI * n) / (fftSize - 1)))`
(line 213). -/
noncomputable def hannWindow (n i : ℕ) : ℝ :=
  0.5 * (1 - Real.cos (2 * Real.pi * i / ((n : ℝ) - 1)))

/-- The accumulated `real` of the DFT loop (lines 210-219):
`real += sample * hann * Math.cos((2 * Math.PI * k * n) / fftSize)`.
Out-of-range reads never occur under the line-190 guard; `getD _ 0` is the
list-indexing embedding. -/
noncomputable def dftRealAt (samples : List ℝ) (start k : ℕ) : ℝ :=
  ∑ n ∈ Finset.range fftSize,
    samples.getD (start + n) 0 * hannWindow fftSize n *
      Real.cos (2 * Real.pi * k * n / fftSize)

/-- The accumulated `imag` of the DFT loop: `imag -= sample * hann * Math.sin(angle)`. -/
noncomputable def dftImagAt (samples : List ℝ) (start k : ℕ) : ℝ :=
  -∑ n ∈ Finset.range fftSize,
    samples.getD (start + n) 0 * hannWindow fftSize n *
      Real.sin (2 * Real.pi * k * n / fftSize)

/-- `magnitude = Math.sqrt(real * real + imag * imag)` (line 222). -/
noncomputable def magnitudeAt (samples : List ℝ) (start k : ℕ) : ℝ :=
  Real.sqrt (dftRealAt samples start k ^ 2 + dftImagAt samples start k ^ 2)

/-- `db = 20 * Math.log10(magnitude / fftSize + 1e-10)` (lines 226-229). -/
noncomputable def dbAt (samples : List ℝ) (start k : ℕ) : ℝ :=
  20 * Real.logb 10 (magnitudeAt samples start k / fftSize + 1e-10)

/-- `rangeScaleFactor = 255 / (MAX_DECIBELS - MIN_DECIBELS)` (line 193). -/
noncomputable def rangeScaleFactor : ℝ := 255 / (MAX_DECIBELS - MIN_DECIBELS)

/-- `byteValue = (db - MIN_DECIBELS) * rangeScaleFactor` clamped by
`Math.max(0, Math.min(255, byteValue))` (lines 232-233). -/
noncomputable def byteValueAt (samples : List ℝ) (start k : ℕ) : ℝ :=
  max 0 (min 255 ((dbAt samples start k - MIN_DECIBELS) * rangeScaleFactor))

/-- `cutoffBin = Math.min(binCount, Math.ceil(LOW_FREQUENCY_CUTOFF_HZ / binResolutionHz))`
with `binResolutionHz = sampleRate / fftSize` (lines 194-198).  `binCount` is
`Math.min(FREQUENCY_BINS, targetArray.length) = 256` since the analyser's data
array has `fftSize / 2 = 1024` entries. -/
noncomputable def cutoffBin (sr : ℝ) : ℕ :=
  min FREQUENCY_BINS (⌈LOW_FREQUENCY_CUTOFF_HZ / (sr / fftSize)⌉.toNat)

/-- The analyzer-level temporal smoothing (lines 236-238):
`smoothedValue = prevData[k] * SMOOTHING_CONSTANT + byteValue * (1 - SMOOTHING_CONSTANT)`. -/
noncomputable def smoothedByteAt (samples : List ℝ) (start k : ℕ) (prev : ℕ → ℝ) : ℝ :=
  prev k * SMOOTHING_CONSTANT + byteValueAt samples start k * (1 - SMOOTHING_CONSTANT)

/-- `computeFrequencyData` (lines 174-242).  State: `prev` is the
`prevFrequencyDataRef` Float32Array (an indexed store `ℕ → ℝ`), `target` is the
`Uint8Array` frame restricted to the `binCount = 256` bins the pipeline reads
(`usableBins`).  The line-190 guard (`startIndex + fftSize >= channelData.length`)
returns with both stores untouched.  Otherwise bins `< cutoffBin` are zero-filled
in both stores (lines 200-203) and bins `cutoffBin ≤ k < 256` get the smoothed
byte value; the `Uint8Array` write truncates (`⌊·⌋.toNat`), while `prevData`
keeps the float. -/
noncomputable def computeFrequencyData (samples : List ℝ) (sr time : ℝ)
    (prev : ℕ → ℝ) (target : List ℕ) : (ℕ → ℝ) × List ℕ :=
  let startIndex := startIndexOf samples sr time
  if samples.length ≤ startIndex + fftSize then (prev, target)
  else
    let c := cutoffBin sr
    (fun k =>
        if k < c then 0
        else if k < FREQUENCY_BINS then smoothedByteAt samples startIndex k prev
        else prev k,
      (List.range FREQUENCY_BINS).map fun k =>
        if k < c then 0 else (⌊smoothedByteAt samples startIndex k prev⌋).toNat)

/-- `kernelRadius = Math.floor(kernel.length / 2)` (line 279). -/
def kernelRadius : ℕ := FREQUENCY_SMOOTH_KERNEL.length / 2

/-- The clamp-to-edge index of the spatial convolution (lines 285-287):
`index = i + (k - kernelRadius)`, clamped into `[0, FREQUENCY_BINS - 1]`. -/
def clampIdx (j : ℤ) : ℕ :=
  if j < 0 then 0
  else if (FREQUENCY_BINS : ℤ) ≤ j then FREQUENCY_BINS - 1
  else j.toNat

/-- `kernel[k]` for `FREQUENCY_SMOOTH_KERNEL`. -/
def kernelAt (k : ℕ) : ℝ := FREQUENCY_SMOOTH_KERNEL.getD k 0

/-- The spatial convolution accumulator (lines 282-289):
`smoothed += normalizedBins[index] * kernel[k]` over the 7 kernel taps. -/
noncomputable def smoothedAt (bins : ℕ → ℝ) (i : ℕ) : ℝ :=
  ∑ k ∈ Finset.range FREQUENCY_SMOOTH_KERNEL.length,
    bins (clampIdx ((i : ℤ) + k - kernelRadius)) * kernelAt k

/-- `blendedFreq = normalizedBins[i] * (1 - FREQUENCY_SMOOTH_MIX) + smoothed * FREQUENCY_SMOOTH_MIX`
(lines 291-293). -/
noncomputable def blendedAt (bins : ℕ → ℝ) (i : ℕ) : ℝ :=
  bins i * (1 - FREQUENCY_SMOOTH_MIX) + smoothedAt bins i * FREQUENCY_SMOOTH_MIX

/-- `normalizedBins[i] = Math.pow(magnitude / 255, 0.7)` where
`magnitude = i < usableBins ? dataArray[i] : 0` (lines 273-276);
the frame list carries the `usableBins = 256` read bins, so `getD _ 0`
covers both cases. -/
noncomputable def normalizedBinsOf (frame : List ℕ) (i : ℕ) : ℝ :=
  ((frame.getD i 0 : ℝ) / 255) ^ (0.7 : ℝ)

/-- The history-level temporal blend (lines 295-297):
`smoothedRow[i] * TEMPORAL_SMOOTHING + blendedFreq * (1 - TEMPORAL_SMOOTHING)`. -/
noncomputable def temporalNext (prevVal x : ℝ) : ℝ :=
  prevVal * TEMPORAL_SMOOTHING + x * (1 - TEMPORAL_SMOOTHING)

/-- Iterating the temporal blend against a constant incoming value `v`,
starting from a committed row value `x0`. -/
noncomputable def temporalIter (v x0 : ℝ) : ℕ → ℝ
  | 0 => x0
  | n + 1 => temporalNext (temporalIter v x0 n) v

/-- A `Uint8Array` element write: truncate toward zero, modulo `2^8`.
(All written pipeline values are non-negative.) -/
noncomputable def toByte (x : ℝ) : ℕ := (⌊x⌋).toNat % 256

/-- One RGBA texel of the spectrogram `DataTexture`. -/
def Pixel : Type := ℕ × ℕ × ℕ × ℕ

/-- The RGBA texel written for a committed value (lines 304-307):
`[v*255, pow(v,0.9)*255, 200 + v*55, 255]`. -/
noncomputable def pixelOf (v : ℝ) : Pixel :=
  (toByte (v * 255), toByte (v ^ (0.9 : ℝ) * 255), toByte (200 + v * 55), 255)

/-- The write loop of `updateSpectrogram` (lines 282-308) as an indexed store:
for each analyzer bin `i < FREQUENCY_BINS` the final value is written at
`pixelIndex = (FREQUENCY_BINS - 1 - i)` — the write-time frequency-axis flip
(line 302-303).  The initial store is the stale row-0 content, fully
overwritten by the loop. -/
noncomputable def rowStoreOf (fv : ℕ → ℝ) : ℕ → Pixel :=
  (List.range FREQUENCY_BINS).foldl
    (fun acc i => Function.update acc (FREQUENCY_BINS - 1 - i) (pixelOf (fv i)))
    (fun _ => (0, 0, 0, 0))

/-- The newly committed texture row (row 0 of the texture) as a list of texels. -/
noncomputable def newRowOf (fv : ℕ → ℝ) : List Pixel :=
  (List.range FREQUENCY_BINS).map (rowStoreOf fv)

/-- The per-tick history shift plus row write, at row granularity:
`spectrogramData.copyWithin(ROW_BYTE_SIZE, 0, length - ROW_BYTE_SIZE)`
(lines 264-268) moves row `i` to row `i + 1`, evicting the last row, and the
write loop fills row `0`.  On a `HISTORY_LENGTH`-row store this is
`r :: h.take (HISTORY_LENGTH - 1)`. -/
def pushRow (r : List Pixel) (h : List (List Pixel)) : List (List Pixel) :=
  r :: h.take (HISTORY_LENGTH - 1)

/-- Iterated per-tick commits (one `pushRow` per tick, oldest first). -/
def pushMany (rows : List (List Pixel)) (h : List (List Pixel)) : List (List Pixel) :=
  rows.foldl (fun acc r => pushRow r acc) h

/-- State owned by `updateSpectrogram` across ticks: the texture rows, the
`smoothedRowRef` store and the `hasSmoothedRowRef` flag. -/
structure CommitState where
  history : List (List Pixel)
  smoothedRow : ℕ → ℝ
  hasPrev : Bool

/-- `finalValue` (lines 295-298): temporal blend against the previous committed
row, bypassed on the very first frame. -/
noncomputable def finalValueAt (st : CommitState) (bins : ℕ → ℝ) (i : ℕ) : ℝ :=
  if st.hasPrev then temporalNext (st.smoothedRow i) (blendedAt bins i)
  else blendedAt bins i

/-- The per-tick commit `updateSpectrogram` (lines 244-313) given the analyzer
frame: normalize, spatially smooth, temporally blend, shift history and write
the flipped row. -/
noncomputable def updateSpectrogramStep (frame : List ℕ) (st : CommitState) : CommitState :=
  let fv := finalValueAt st (normalizedBinsOf frame)
  { history := pushRow (newRowOf fv) st.history
    smoothedRow := fv
    hasPrev := true }

/-- The gesture-gate states of the spec's `PlaybackState`
(`Locked → Unlocking → Running`); the audio engine may be in any of them. -/
inductive EngineState
  | locked
  | unlocking
  | running

/-- The mutable visual-pipeline state: analyzer previous-frame store, the
current analyzer frame (`dataArrayRef`), and the commit state. -/
structure PipelineState where
  prevFreq : ℕ → ℝ
  dataFrame : List ℕ
  commit : CommitState

/-- One animation tick of the visual path (`renderScene` → `updateSpectrogram`,
lines 695-711 and 244-313).  The engine state is a parameter only to state
independence: the source path never consults it — it "always use[s] software
analysis (Visual Playback) … regardless of whether the audio context is
running, suspended, or transitioning" (lines 257-259). -/
noncomputable def visualTick (_engine : EngineState) (time : ℝ) (samples : List ℝ)
    (sr : ℝ) (st : PipelineState) : PipelineState :=
  let r := computeFrequencyData samples sr time st.prevFreq st.dataFrame
  { prevFreq := r.1
    dataFrame := r.2
    commit := updateSpectrogramStep r.2 st.commit }

/-- A single-impulse analyzer row: value `1` at bin `b`, `0` elsewhere. -/
noncomputable def impulse (b : ℕ) : ℕ → ℝ := fun j => if j = b then 1 else 0

/-- The total kernel weight landing on bin `b` itself after clamp-to-edge:
the coefficient an impulse at `b` receives from the spatial convolution. -/
noncomputable def tapSum (b : ℕ) : ℝ :=
  ∑ k ∈ Finset.range FREQUENCY_SMOOTH_KERNEL.length,
    if clampIdx ((b : ℤ) + k - kernelRadius) = b then kernelAt k else 0

end Spectro

namespace P002

/-- `FREQUENCY_BINS` of the 64-bin variant (`src/unnamed/part_002`, line 5). -/
def FREQUENCY_BINS : ℕ := 64

/-- The RGBA texel written by the part_002 commit loop (lines 206-209):
same channel formulas as the 256-bin variant. -/
noncomputable def pixelOf (v : ℝ) : Spectro.Pixel :=
  (Spectro.toByte (v * 255), Spectro.toByte (v ^ (0.9 : ℝ) * 255),
    Spectro.toByte (200 + v * 55), 255)

/-- The part_002 write loop (lines 202-210) as an indexed store: the value of
bin `i` is written at `pixelIndex = i` — no frequency-axis flip. -/
noncomputable def rowStoreOf (fv : ℕ → ℝ) : ℕ → Spectro.Pixel :=
  (List.range FREQUENCY_BINS).foldl
    (fun acc i => Function.update acc i (pixelOf (fv i)))
    (fun _ => (0, 0, 0, 0))

/-- The newly committed part_002 texture row. -/
noncomputable def newRowOf (fv : ℕ → ℝ) : List Spectro.Pixel :=
  (List.range FREQUENCY_BINS).map (rowStoreOf fv)

end P002

namespace P3

/-- `SURFACE_COUNT` of the contour variant (`src/unnamed/part_003`, line 3). -/
def SURFACE_COUNT : ℕ := 3

/-- `TIME_SLICES` (line 4). -/
def TIME_SLICES : ℕ := 28

/-- `FREQ_BINS` (line 5). -/
def FREQ_BINS : ℕ := 20

/-- `WINDOW_SIZE` (line 6). -/
def WINDOW_SIZE : ℕ := 2048

/-- `MIN_FREQ` (line 7). -/
def MIN_FREQ : ℝ := 60

/-- `MAX_FREQ` (line 8). -/
def MAX_FREQ : ℝ := 9000

/-- `BLEND_DURATION_MS` (line 11). -/
def BLEND_DURATION_MS : ℝ := 600

/-- `type SurfaceMatrix = number[][]` (line 15). -/
abbrev SurfaceMatrix : Type := List (List ℝ)

/-- `applyHannWindow` (lines 33-36). -/
noncomputable def applyHannWindow (len index : ℕ) : ℝ :=
  if len ≤ 1 then 1
  else 0.5 * (1 - Real.cos (2 * Real.pi * index / ((len : ℝ) - 1)))

/-- The incremental rotation carried by the `computeSpectrumSegment` loop
(lines 53-66): `(cosValue, sinValue)` starts at `(1, 0)` and is advanced once
per sample by `(c, s) ↦ (c*cosDelta - s*sinDelta, s*cosDelta + c*sinDelta)`;
`rot cd sd i` is its value when sample `i` is accumulated. -/
noncomputable def rot (cd sd : ℝ) : ℕ → ℝ × ℝ
  | 0 => (1, 0)
  | n + 1 =>
    let p := rot cd sd n
    (p.1 * cd - p.2 * sd, p.2 * cd + p.1 * sd)

/-- The target frequency of a bin (lines 43-48):
`freq = MIN_FREQ + freqSpan * bin / (FREQ_BINS - 1 || 1)` with
`freqSpan = max(1, min(MAX_FREQ, sampleRate/2) - MIN_FREQ)`;
`FREQ_BINS - 1 = 19 ≠ 0`, so the `|| 1` fallback never fires. -/
noncomputable def binFreq (sr : ℝ) (bin : ℕ) : ℝ :=
  MIN_FREQ + max 1 (min MAX_FREQ (sr / 2) - MIN_FREQ) * bin / ((FREQ_BINS : ℝ) - 1)

/-- One bin of `computeSpectrumSegment` (lines 47-70): the single-frequency
correlation `real += windowed * cosValue`, `imag -= windowed * sinValue` over
the segment, written as finite sums over the rotation values, followed by
`Math.sqrt(real*real + imag*imag)`. -/
noncomputable def magAt (seg : List ℝ) (sr : ℝ) (bin : ℕ) : ℝ :=
  let angle := 2 * Real.pi * binFreq sr bin / sr
  let cd := Real.cos angle
  let sd := Real.sin angle
  let re := ∑ i ∈ Finset.range seg.length,
    seg.getD i 0 * applyHannWindow seg.length i * (rot cd sd i).1
  let im := -∑ i ∈ Finset.range seg.length,
    seg.getD i 0 * applyHannWindow seg.length i * (rot cd sd i).2
  Real.sqrt (re ^ 2 + im ^ 2)

/-- `computeSpectrumSegment` (lines 38-73): one magnitude per bin. -/
noncomputable def computeSpectrumSegment (seg : List ℝ) (sr : ℝ) : List ℝ :=
  (List.range FREQ_BINS).map (magAt seg sr)

/-- One time slice of a surface (lines 131-151): when the slice start lies past
the layer, an all-zero row is pushed; otherwise an `available`-sample segment
(`Float32Array(available)`, zero-padded past the layer's end) is analyzed. -/
noncomputable def sliceRow (layer : List ℝ) (sr : ℝ) (sliceLength slice : ℕ) : List ℝ :=
  let start := slice * sliceLength
  if layer.length ≤ start then List.replicate FREQ_BINS 0
  else
    let available := max 64 (min WINDOW_SIZE (layer.length - start))
    let base := (layer.drop start).take available
    computeSpectrumSegment (base ++ List.replicate (available - base.length) 0) sr

/-- One surface of `extractSurfacesForWindow` (lines 122-153):
`sliceLength = max(1, floor(layer.length / TIME_SLICES))`, `TIME_SLICES` rows. -/
noncomputable def surfaceOf (layer : List ℝ) (sr : ℝ) : SurfaceMatrix :=
  (List.range TIME_SLICES).map (sliceRow layer sr (max 1 (layer.length / TIME_SLICES)))

/-- The sample window of one surface (lines 124-126):
`windowed.subarray(offset, min(offset + segmentLength, windowed.length))`. -/
noncomputable def layerOf (windowed : List ℝ) (segmentLength si : ℕ) : List ℝ :=
  (windowed.drop (si * segmentLength)).take
    (min (si * segmentLength + segmentLength) windowed.length - si * segmentLength)

/-- `type AudioPayload` (lines 28-31): decoded first-channel samples and rate. -/
structure AudioPayload where
  samples : List ℝ
  sampleRate : ℝ

/-- The pre-normalisation surfaces built by `extractSurfacesForWindow`
(lines 108-154): empty when the window is empty; empty layers are skipped
(`continue`), surviving layers yield one `TIME_SLICES × FREQ_BINS` matrix. -/
noncomputable def rawSurfaces (payload : AudioPayload)
    (startSample windowSamples : ℕ) : List SurfaceMatrix :=
  let e := min payload.samples.length (startSample + windowSamples)
  if e ≤ startSample then []
  else
    let windowed := (payload.samples.drop startSample).take (e - startSample)
    let segmentLength := max 1 (windowed.length / SURFACE_COUNT)
    (List.range SURFACE_COUNT).filterMap fun si =>
      let layer := layerOf windowed segmentLength si
      if layer.isEmpty then none else some (surfaceOf layer payload.sampleRate)

/-- All values of a surface list, row-major. -/
def allVals (s : List SurfaceMatrix) : List ℝ := s.flatten.flatten

/-- The running `globalMax` of `extractSurfacesForWindow` (lines 120-151):
the loop maximizes over every computed magnitude starting from `0`; the
skipped all-zero filler rows only contribute `0`, the fold's start value, so
folding `max` over all surface values is the same number. -/
noncomputable def globalMaxOf (payload : AudioPayload)
    (startSample windowSamples : ℕ) : ℝ :=
  (allVals (rawSurfaces payload startSample windowSamples)).foldl max 0

/-- `extractSurfacesForWindow` (lines 108-163): every raw value is divided by
`normalizer = globalMax || 1` and raised to `0.85`. -/
noncomputable def extractSurfacesForWindow (payload : AudioPayload)
    (startSample windowSamples : ℕ) : List SurfaceMatrix :=
  let normalizer :=
    if globalMaxOf payload startSample windowSamples = 0 then 1
    else globalMaxOf payload startSample windowSamples
  (rawSurfaces payload startSample windowSamples).map fun s =>
    s.map fun row => row.map fun v => (v / normalizer) ^ (0.85 : ℝ)

/-- `blendSurfaces` (lines 268-286): with an empty `from` set the target is
returned; otherwise progress is clamped to `[0, 1]` and every target value is
interpolated from the positionally matching `from` value (`?? 0` when absent):
`start + (value - start) * clamped`. -/
noncomputable def blendSurfaces (src dst : List SurfaceMatrix) (t : ℝ) :
    List SurfaceMatrix :=
  if src.isEmpty then dst
  else
    let clamped := min 1 (max 0 t)
    dst.mapIdx fun si surface =>
      surface.mapIdx fun ri row =>
        row.mapIdx fun ci v =>
          let s := (((src.get? si).bind fun m => m.get? ri).bind fun r => r.get? ci).getD 0
          s + (v - s) * clamped

/-- The in-flight cross-fade of `scheduleBlend` (lines 293-297, 322-356):
source and destination layer sets and the start timestamp. -/
structure Transition where
  src : List SurfaceMatrix
  dst : List SurfaceMatrix
  start : ℝ

/-- One animation-frame `step` of `scheduleBlend` (lines 328-352):
`progress = min((now - start) / BLEND_DURATION_MS, 1)`; at `progress ≥ 1` the
displayed set is exactly the transition's `to` matrix and the blend task
self-terminates (transition cleared, no further frame requested); otherwise the
interpolated set is displayed and the transition stays active. -/
noncomputable def stepBlend (tr : Transition) (now : ℝ) :
    List SurfaceMatrix × Option Transition :=
  let progress := min ((now - tr.start) / BLEND_DURATION_MS) 1
  if 1 ≤ progress then (tr.dst, none)
  else (blendSurfaces tr.src tr.dst progress, some tr)

/-- A concrete 195-sample asset used to evaluate the window pipeline: a unit
impulse at sample 32, sample rate 240 Hz (so bin 0 targets 60 Hz = a quarter
period per sample). -/
noncomputable def wSamples : List ℝ :=
  List.replicate 32 0 ++ [1] ++ List.replicate 162 0

/-- The first 65 samples of `wSamples`: the layer analyzed by surface 0,
slice 0 of the 195-sample window. -/
noncomputable def seg0 : List ℝ :=
  List.replicate 32 0 ++ [1] ++ List.replicate 32 0

/-- The concrete payload for evaluating `extractSurfacesForWindow`. -/
noncomputable def wPayload : AudioPayload := ⟨wSamples, 240⟩

end P3

/-! ### Generic list helpers -/

theorem getD_map_range {α : Type} (f : ℕ → α) (d : α) {i n : ℕ} (h : i < n) :
    ((List.range n).map f).getD i d = f i := by
  rw [List.getD_eq_getElem?_getD, List.getElem?_map, List.getElem?_range h]
  rfl

theorem foldl_update_of_not_mem {α : Type} (g : ℕ → ℕ) (v : ℕ → α)
    (l : List ℕ) (s : ℕ → α) (x : ℕ) (hx : ∀ i ∈ l, g i ≠ x) :
    (l.foldl (fun acc i => Function.update acc (g i) (v i)) s) x = s x := by
  induction l generalizing s with
  | nil => rfl
  | cons a t ih =>
    rw [List.foldl_cons, ih _ fun i hi => hx i (List.mem_cons_of_mem a hi)]
    exact Function.update_noteq (Ne.symm (hx a (List.mem_cons_self a t))) _ s

theorem foldl_update_of_mem {α : Type} (g : ℕ → ℕ) (v : ℕ → α)
    (l : List ℕ) (s : ℕ → α) (i : ℕ) (hi : i ∈ l)
    (huniq : ∀ j ∈ l, g j = g i → j = i) :
    (l.foldl (fun acc i => Function.update acc (g i) (v i)) s) (g i) = v i := by
  induction l generalizing s with
  | nil => cases hi
  | cons a t ih =>
    rw [List.foldl_cons]
    by_cases hmem : i ∈ t
    · exact ih _ hmem fun j hj => huniq j (List.mem_cons_of_mem a hj)
    · have hai : a = i := by
        rcases List.mem_cons.mp hi with h | h
        · exact h.symm
        · exact absurd h hmem
      subst hai
      rw [foldl_update_of_not_mem]
      · exact Function.update_same _ _ _
      · intro j hj hgj
        exact hmem (huniq j (List.mem_cons_of_mem a hj) hgj ▸ hj)

namespace Spectro

/-! ### C2: the virtual playback clock -/

theorem jsTrunc_nonneg_eq_floor {x : ℝ} (h : 0 ≤ x) : jsTrunc x = ⌊x⌋ := by
  simp [jsTrunc, h]

theorem startIndexOf_time_zero (samples : List ℝ) (sr : ℝ) :
    startIndexOf samples sr 0 = 0 := by
  unfold startIndexOf analyzeOffset jsMod jsTrunc
  norm_num

/-- C2: the virtual clock computes `offset(now, D) = now mod D`; the same
formula is used when analyzing (`computeFrequencyData`) and when starting the
real audio source (`startAudioSource`); the offset is periodic in the asset
duration (`offset(t + D, D) = offset(t, D)` for wall clocks `t ≥ 0`, `D > 0`);
`D = 10, now = 12` gives offset `2`, and the offset wraps from `9.999` to
`0.001` across a period boundary. -/
theorem claim_C2_virtual_clock :
    (∀ time duration : ℝ,
        analyzeOffset time duration = jsMod time duration ∧
        startSourceOffset time duration = analyzeOffset time duration) ∧
    (∀ t D : ℝ, 0 ≤ t → 0 < D → jsMod (t + D) D = jsMod t D) ∧
    jsMod 12 10 = 2 ∧ jsMod 9.999 10 = 9.999 ∧ jsMod 10.001 10 = 0.001 := by
  refine ⟨fun time duration => ⟨rfl, rfl⟩, ?_, ?_, ?_, ?_⟩
  · intro t D ht hD
    have hD0 : (D : ℝ) ≠ 0 := ne_of_gt hD
    have hdiv : (t + D) / D = t / D + 1 := by field_simp
    have h1 : 0 ≤ t / D := div_nonneg ht (le_of_lt hD)
    have h2 : (0 : ℝ) ≤ t / D + 1 := by linarith
    unfold jsMod
    rw [hdiv, jsTrunc_nonneg_eq_floor h1, jsTrunc_nonneg_eq_floor h2]
    have : ⌊t / D + 1⌋ = ⌊t / D⌋ + 1 := by
      rw [show t / D + 1 = t / D + (1 : ℤ) by push_cast; ring, Int.floor_add_int]
    rw [this]
    push_cast
    ring
  · unfold jsMod
    rw [jsTrunc_nonneg_eq_floor (by norm_num)]
    norm_num
  · unfold jsMod
    rw [jsTrunc_nonneg_eq_floor (by norm_num)]
    norm_num
  · unfold jsMod
    rw [jsTrunc_nonneg_eq_floor (by norm_num)]
    norm_num

theorem claim_C2_witness :
    jsMod (3 + 2) 2 = jsMod 3 2 ∧ jsMod 12 10 = 2 :=
  ⟨claim_C2_virtual_clock.2.1 3 2 (by norm_num) (by norm_num),
    claim_C2_virtual_clock.2.2.1⟩

/-! ### C1: frame shape, output clamping, low-frequency suppression -/

theorem byteValueAt_nonneg (samples : List ℝ) (start k : ℕ) :
    0 ≤ byteValueAt samples start k :=
  le_max_left 0 _

theorem byteValueAt_le (samples : List ℝ) (start k : ℕ) :
    byteValueAt samples start k ≤ 255 :=
  max_le (by norm_num) (min_le_left _ _)

theorem smoothedByteAt_mem_range (samples : List ℝ) (start k : ℕ) (prev : ℕ → ℝ)
    (h0 : 0 ≤ prev k) (h255 : prev k ≤ 255) :
    0 ≤ smoothedByteAt samples start k prev ∧ smoothedByteAt samples start k prev ≤ 255 := by
  have hb0 := byteValueAt_nonneg samples start k
  have hb1 := byteValueAt_le samples start k
  unfold smoothedByteAt SMOOTHING_CONSTANT
  constructor <;> nlinarith

/-- C1: for every offset at which the analysis window fits inside the decoded
sample buffer (the line-190 guard passes), `computeFrequencyData` produces a
frame of exactly `FREQUENCY_BINS` values, each inside the configured `[0, 255]`
output range (frame entries are naturals, so only the upper bound is stated),
and every bin below `cutoffBin` (the `LOW_FREQUENCY_CUTOFF_HZ`-derived bin
index) is exactly `0`.  The hypothesis on `prev` is the analyzer-state
invariant: `prevFrequencyDataRef` entries start at `0` and stay in `[0, 255]`
(each update is a convex combination of in-range values). -/
theorem claim_C1_analyzer_frame (samples : List ℝ) (sr time : ℝ)
    (prev : ℕ → ℝ) (target : List ℕ)
    (hprev : ∀ k, 0 ≤ prev k ∧ prev k ≤ 255)
    (hfit : startIndexOf samples sr time + fftSize < samples.length) :
    (computeFrequencyData samples sr time prev target).2.length = FREQUENCY_BINS ∧
    (∀ v ∈ (computeFrequencyData samples sr time prev target).2, v ≤ 255) ∧
    (∀ i < cutoffBin sr, (computeFrequencyData samples sr time prev target).2.getD i 0 = 0) := by
  unfold computeFrequencyData
  rw [if_neg (by omega)]
  refine ⟨by simp, ?_, ?_⟩
  · intro v hv
    simp only [List.mem_map, List.mem_range] at hv
    obtain ⟨k, _, rfl⟩ := hv
    by_cases hk : k < cutoffBin sr
    · simp [hk]
    · rw [if_neg hk]
      have hsm := smoothedByteAt_mem_range samples (startIndexOf samples sr time) k prev
        (hprev k).1 (hprev k).2
      have : ⌊smoothedByteAt samples (startIndexOf samples sr time) k prev⌋ ≤ 255 := by
        have := Int.floor_le_floor (α := ℝ) hsm.2
        simpa using this
      exact Int.toNat_le.mpr this
  · intro i hi
    have hin : i < FREQUENCY_BINS := lt_of_lt_of_le hi (min_le_left _ _)
    rw [getD_map_range _ _ hin, if_pos hi]

theorem claim_C1_witness :
    (∀ k : ℕ, 0 ≤ (0 : ℝ) ∧ (0 : ℝ) ≤ 255) ∧
    startIndexOf (List.replicate 3000 (0 : ℝ)) 44100 0 + fftSize <
      (List.replicate 3000 (0 : ℝ)).length ∧
    (∀ v ∈ (computeFrequencyData (List.replicate 3000 (0 : ℝ)) 44100 0
        (fun _ => 0) []).2, v ≤ 255) := by
  have hfit : startIndexOf (List.replicate 3000 (0 : ℝ)) 44100 0 + fftSize <
      (List.replicate 3000 (0 : ℝ)).length := by
    rw [startIndexOf_time_zero, List.length_replicate]
    norm_num [fftSize]
  exact ⟨fun _ => ⟨le_refl 0, by norm_num⟩, hfit,
    (claim_C1_analyzer_frame (List.replicate 3000 (0 : ℝ)) 44100 0 (fun _ => 0) []
      (fun _ => ⟨le_refl 0, by norm_num⟩) hfit).2.1⟩

/-! ### C3: out-of-range analysis windows are skipped -/

theorem startIndexOf_congr_length {s₁ s₂ : List ℝ} (sr time : ℝ)
    (h : s₂.length = s₁.length) :
    startIndexOf s₂ sr time = startIndexOf s₁ sr time := by
  unfold startIndexOf
  rw [h]

/-- C3: if the requested analysis window would read past the end of the sample
buffer, the analyzer skips the tick entirely: both the previous-frame store and
the output frame are returned unchanged (first conjunct, total — no exception);
and the analyzer never reads a sample outside the requested window: its result
depends only on the `fftSize` samples starting at `startIndex` (second
conjunct), which under the guard all lie inside the buffer. -/
theorem claim_C3_window_skip :
    (∀ (samples : List ℝ) (sr time : ℝ) (prev : ℕ → ℝ) (target : List ℕ),
        samples.length ≤ startIndexOf samples sr time + fftSize →
        computeFrequencyData samples sr time prev target = (prev, target)) ∧
    (∀ (s₁ s₂ : List ℝ) (sr time : ℝ) (prev : ℕ → ℝ) (target : List ℕ),
        s₂.length = s₁.length →
        (∀ n < fftSize,
          s₂.getD (startIndexOf s₁ sr time + n) 0 =
            s₁.getD (startIndexOf s₁ sr time + n) 0) →
        computeFrequencyData s₂ sr time prev target =
          computeFrequencyData s₁ sr time prev target) := by
  constructor
  · intro samples sr time prev target h
    unfold computeFrequencyData
    rw [if_pos h]
  · intro s₁ s₂ sr time prev target hlen hagree
    have hstart : startIndexOf s₂ sr time = startIndexOf s₁ sr time :=
      startIndexOf_congr_length sr time hlen
    have hre : ∀ k, dftRealAt s₂ (startIndexOf s₁ sr time) k =
        dftRealAt s₁ (startIndexOf s₁ sr time) k := by
      intro k
      unfold dftRealAt
      refine Finset.sum_congr rfl fun n hn => ?_
      rw [hagree n (Finset.mem_range.mp hn)]
    have him : ∀ k, dftImagAt s₂ (startIndexOf s₁ sr time) k =
        dftImagAt s₁ (startIndexOf s₁ sr time) k := by
      intro k
      unfold dftImagAt
      refine congrArg Neg.neg ?_
      refine Finset.sum_congr rfl fun n hn => ?_
      rw [hagree n (Finset.mem_range.mp hn)]
    have hsm : ∀ k, smoothedByteAt s₂ (startIndexOf s₁ sr time) k prev =
        smoothedByteAt s₁ (startIndexOf s₁ sr time) k prev := by
      intro k
      unfold smoothedByteAt byteValueAt dbAt magnitudeAt
      rw [hre k, him k]
    unfold computeFrequencyData
    rw [hstart, hlen]
    by_cases hg : s₁.length ≤ startIndexOf s₁ sr time + fftSize
    · rw [if_pos hg, if_pos hg]
    · rw [if_neg hg, if_neg hg]
      refine Prod.ext ?_ ?_
      · funext k
        simp only
        rw [hsm k]
      · simp only
        refine List.map_congr_left fun k _ => ?_
        rw [hsm k]

theorem claim_C3_witness :
    ((List.replicate 100 (0 : ℝ)).length ≤
        startIndexOf (List.replicate 100 (0 : ℝ)) 44100 0 + fftSize ∧
      computeFrequencyData (List.replicate 100 (0 : ℝ)) 44100 0 (fun _ => 3) [7] =
        ((fun _ => 3), [7])) ∧
    ((List.replicate 2999 (0 : ℝ) ++ [5]).length = (List.replicate 3000 (0 : ℝ)).length ∧
      computeFrequencyData (List.replicate 2999 (0 : ℝ) ++ [5]) 44100 0 (fun _ => 0) [] =
        computeFrequencyData (List.replicate 3000 (0 : ℝ)) 44100 0 (fun _ => 0) []) := by
  have hstart0 : startIndexOf (List.replicate 3000 (0 : ℝ)) 44100 0 = 0 :=
    startIndexOf_time_zero _ _
  have hlen : (List.replicate 2999 (0 : ℝ) ++ [5]).length =
      (List.replicate 3000 (0 : ℝ)).length := by
    rw [List.length_append, List.length_replicate, List.length_replicate]
    rfl
  have hshort : (List.replicate 100 (0 : ℝ)).length ≤
      startIndexOf (List.replicate 100 (0 : ℝ)) 44100 0 + fftSize := by
    rw [startIndexOf_time_zero, List.length_replicate]
    norm_num [fftSize]
  constructor
  · exact ⟨hshort, claim_C3_window_skip.1 _ 44100 0 _ _ hshort⟩
  · refine ⟨hlen, ?_⟩
    refine claim_C3_window_skip.2 _ _ 44100 0 _ _ hlen ?_
    intro n hn
    rw [hstart0]
    simp only [zero_add]
    have hn' : n < 2999 := by
      have : n < fftSize := hn
      unfold fftSize at this
      omega
    have h1 : (List.replicate 3000 (0 : ℝ)).getD n 0 = 0 := by
      rw [List.getD_eq_getElem?_getD, List.getElem?_replicate]
      rw [if_pos (by omega : n < 3000)]
      rfl
    have h2 : (List.replicate 2999 (0 : ℝ) ++ [5]).getD n 0 = 0 := by
      rw [List.getD_eq_getElem?_getD,
        List.getElem?_append_left (by rw [List.length_replicate]; omega),
        List.getElem?_replicate]
      rw [if_pos hn']
      rfl
    rw [h1, h2]

end Spectro


namespace Spectro

/-! ### C4: the history buffer is a fixed-length shift register -/

theorem pushRow_length (r : List Pixel) (h : List (List Pixel))
    (hh : h.length = HISTORY_LENGTH) : (pushRow r h).length = HISTORY_LENGTH := by
  unfold pushRow
  rw [List.length_cons, List.length_take, hh]
  unfold HISTORY_LENGTH
  omega

theorem pushMany_eq_take (rows : List (List Pixel)) (h : List (List Pixel))
    (hh : h.length = HISTORY_LENGTH) :
    pushMany rows h = (rows.reverse ++ h).take HISTORY_LENGTH := by
  induction rows generalizing h with
  | nil =>
    unfold pushMany
    rw [List.foldl_nil, List.reverse_nil, List.nil_append,
      List.take_of_length_le (le_of_eq hh)]
  | cons r rs ih =>
    unfold pushMany at *
    rw [List.foldl_cons, ih (pushRow r h) (pushRow_length r h hh),
      List.reverse_cons, List.append_assoc, List.take_append_eq_append_take,
      List.take_append_eq_append_take]
    congr 1
    rcases Nat.eq_zero_or_pos (HISTORY_LENGTH - rs.reverse.length) with h0 | hpos
    · rw [h0, List.take_zero, List.take_zero]
    · obtain ⟨m, hm⟩ := Nat.exists_eq_add_of_lt hpos
      rw [hm, zero_add]
      show (r :: h.take (HISTORY_LENGTH - 1)).take (m + 1) = ([r] ++ h).take (m + 1)
      rw [List.singleton_append, List.take_succ_cons, List.take_succ_cons,
        List.take_take, min_eq_left (by omega)]

/-- C4: the history always holds exactly `HISTORY_LENGTH` rows: each commit
shifts every existing row by one slot (evicting the oldest) and writes the new
row into the fixed newest slot (index `0`), so for any starting store of the
invariant length, (i) the length is preserved under any number of pushes,
(ii) pushing `rows` with `HISTORY_LENGTH ≤ rows.length` leaves exactly the last
`HISTORY_LENGTH` pushed rows in temporal order (newest first), and (iii) the
newest entry equals the most recently pushed row. -/
theorem claim_C4_history_ring (h : List (List Pixel)) (rows : List (List Pixel))
    (hh : h.length = HISTORY_LENGTH) :
    (pushMany rows h).length = HISTORY_LENGTH ∧
    (HISTORY_LENGTH ≤ rows.length → pushMany rows h = rows.reverse.take HISTORY_LENGTH) ∧
    (∀ r rs, rows = rs ++ [r] → (pushMany rows h).head? = some r) := by
  have key := pushMany_eq_take rows h hh
  refine ⟨?_, ?_, ?_⟩
  · rw [key, List.length_take, List.length_append, List.length_reverse, hh]
    unfold HISTORY_LENGTH
    omega
  · intro hge
    rw [key, List.take_append_eq_append_take,
      show HISTORY_LENGTH - rows.reverse.length = 0 by
        rw [List.length_reverse]; omega,
      List.take_zero, List.append_nil]
  · intro r rs hrr
    subst hrr
    rw [key, List.reverse_append, List.reverse_singleton, List.singleton_append,
      List.cons_append, show HISTORY_LENGTH = 255 + 1 from rfl,
      List.take_succ_cons, List.head?_cons]

theorem claim_C4_witness :
    (List.replicate HISTORY_LENGTH ([] : List Pixel)).length = HISTORY_LENGTH ∧
    (pushMany [[]] (List.replicate HISTORY_LENGTH [])).head? =
      some ([] : List Pixel) := by
  have hh : (List.replicate HISTORY_LENGTH ([] : List Pixel)).length = HISTORY_LENGTH :=
    List.length_replicate _ _
  exact ⟨hh, (claim_C4_history_ring _ [[]] hh).2.2 [] []
    (List.nil_append _).symm⟩

end Spectro

namespace Spectro

/-! ### C5: frequency-axis flip at write time -/

theorem rowStoreOf_eq (fv : ℕ → ℝ) {i : ℕ} (hi : i < FREQUENCY_BINS) :
    rowStoreOf fv (FREQUENCY_BINS - 1 - i) = pixelOf (fv i) := by
  unfold rowStoreOf
  refine foldl_update_of_mem (fun i => FREQUENCY_BINS - 1 - i) (fun i => pixelOf (fv i))
    (List.range FREQUENCY_BINS) _ i (List.mem_range.mpr hi) ?_
  intro j hj hgj
  have hj' := List.mem_range.mp hj
  have hgj' : FREQUENCY_BINS - 1 - j = FREQUENCY_BINS - 1 - i := hgj
  unfold FREQUENCY_BINS at hj' hgj' hi
  omega

theorem newRowOf_getD (fv : ℕ → ℝ) {i : ℕ} (hi : i < FREQUENCY_BINS) :
    (newRowOf fv).getD (FREQUENCY_BINS - 1 - i) (0, 0, 0, 0) = pixelOf (fv i) := by
  unfold newRowOf
  rw [getD_map_range _ _ (show FREQUENCY_BINS - 1 - i < FREQUENCY_BINS by
    unfold FREQUENCY_BINS; omega)]
  exact rowStoreOf_eq fv hi

end Spectro

namespace P002

theorem rowStoreOf_unflipped (fv : ℕ → ℝ) {i : ℕ} (hi : i < FREQUENCY_BINS) :
    rowStoreOf fv i = pixelOf (fv i) := by
  unfold rowStoreOf
  refine foldl_update_of_mem (fun i => i) (fun i => pixelOf (fv i))
    (List.range FREQUENCY_BINS) _ i (List.mem_range.mpr hi) ?_
  intro j hj hgj
  exact hgj

theorem newRowOf_getD_unflipped (fv : ℕ → ℝ) {i : ℕ} (hi : i < FREQUENCY_BINS) :
    (newRowOf fv).getD i (0, 0, 0, 0) = pixelOf (fv i) := by
  unfold newRowOf
  rw [getD_map_range _ _ hi]
  exact rowStoreOf_unflipped fv hi

theorem pixelOf_zero_ne_one : pixelOf 0 ≠ pixelOf 1 := by
  intro h
  have h1 : Spectro.toByte ((0 : ℝ) * 255) = Spectro.toByte ((1 : ℝ) * 255) :=
    congrArg Prod.fst h
  unfold Spectro.toByte at h1
  norm_num at h1
  omega

end P002

/-- C5 counterexample: the claim "every row committed to the history buffer has
the frequency axis flipped once at write time (analyzer bin `i` stored at row
position `BIN_COUNT - 1 - i`)" fails on the part_002 variant: committing the
impulse row (bin 0 = 1) stores the impulse texel at position `0`, not at
position `BIN_COUNT - 1 = 63`, which instead holds the zero texel. -/
theorem claim_C5_counterexample :
    (P002.newRowOf (Spectro.impulse 0)).getD 0 (0, 0, 0, 0) = P002.pixelOf 1 ∧
    (P002.newRowOf (Spectro.impulse 0)).getD 63 (0, 0, 0, 0) = P002.pixelOf 0 ∧
    P002.pixelOf 0 ≠ P002.pixelOf 1 := by
  refine ⟨?_, ?_, P002.pixelOf_zero_ne_one⟩
  · rw [P002.newRowOf_getD_unflipped (Spectro.impulse 0)
      (show 0 < P002.FREQUENCY_BINS by unfold P002.FREQUENCY_BINS; omega)]
    unfold Spectro.impulse
    norm_num
  · rw [P002.newRowOf_getD_unflipped (Spectro.impulse 0)
      (show 63 < P002.FREQUENCY_BINS by unfold P002.FREQUENCY_BINS; omega)]
    unfold Spectro.impulse
    norm_num

/-- C5 (amended): the primary 256-bin component flips the frequency axis once,
at write time — analyzer bin `i` is stored at row position
`FREQUENCY_BINS - 1 - i` of the committed row — while the part_002 variant
commits rows unflipped (bin `i` stored at position `i`). -/
theorem claim_C5_amended :
    (∀ (fv : ℕ → ℝ) (i : ℕ), i < Spectro.FREQUENCY_BINS →
        (Spectro.newRowOf fv).getD (Spectro.FREQUENCY_BINS - 1 - i) (0, 0, 0, 0) =
          Spectro.pixelOf (fv i)) ∧
    (∀ (fv : ℕ → ℝ) (i : ℕ), i < P002.FREQUENCY_BINS →
        (P002.newRowOf fv).getD i (0, 0, 0, 0) = P002.pixelOf (fv i)) :=
  ⟨fun fv i hi => Spectro.newRowOf_getD fv hi,
    fun fv i hi => P002.newRowOf_getD_unflipped fv hi⟩

theorem claim_C5_witness :
    (0 < Spectro.FREQUENCY_BINS ∧
      (Spectro.newRowOf (fun _ => 0)).getD (Spectro.FREQUENCY_BINS - 1 - 0) (0, 0, 0, 0) =
        Spectro.pixelOf 0) ∧
    (0 < P002.FREQUENCY_BINS ∧
      (P002.newRowOf (fun _ => 0)).getD 0 (0, 0, 0, 0) = P002.pixelOf 0) :=
  ⟨⟨by unfold Spectro.FREQUENCY_BINS; omega,
      claim_C5_amended.1 (fun _ => 0) 0 (by unfold Spectro.FREQUENCY_BINS; omega)⟩,
    ⟨by unfold P002.FREQUENCY_BINS; omega,
      claim_C5_amended.2 (fun _ => 0) 0 (by unfold P002.FREQUENCY_BINS; omega)⟩⟩

namespace Spectro

/-! ### C6: temporal filter convergence -/

theorem temporalIter_step_dist (v x0 : ℝ) (n : ℕ) :
    |temporalIter v x0 (n + 1) - v| = TEMPORAL_SMOOTHING * |temporalIter v x0 n - v| := by
  have hstep : temporalIter v x0 (n + 1) - v =
      TEMPORAL_SMOOTHING * (temporalIter v x0 n - v) := by
    show temporalNext (temporalIter v x0 n) v - v = _
    unfold temporalNext
    ring
  rw [hstep, abs_mul, abs_of_nonneg (by norm_num [TEMPORAL_SMOOTHING])]

theorem temporalIter_geometric (v x0 : ℝ) (n : ℕ) :
    |temporalIter v x0 n - v| = TEMPORAL_SMOOTHING ^ n * |x0 - v| := by
  induction n with
  | zero => simp [temporalIter]
  | succ n ih =>
    rw [temporalIter_step_dist, ih, pow_succ]
    ring

/-- C6: temporal filter convergence.  The committed blend is
`out = prev * TEMPORAL_SMOOTHING + new * (1 - TEMPORAL_SMOOTHING)` whenever a
previous row exists, and the very first frame bypasses the blend (first two
conjuncts).  Feeding the same value `v` every tick makes the distance to `v`
shrink by exactly the factor `TEMPORAL_SMOOTHING` each tick, hence
geometrically (`k^n`), and any tolerance `ε > 0` is reached from some tick on. -/
theorem claim_C6_temporal_convergence :
    (∀ (st : CommitState) (bins : ℕ → ℝ) (i : ℕ), st.hasPrev = false →
        finalValueAt st bins i = blendedAt bins i) ∧
    (∀ (st : CommitState) (bins : ℕ → ℝ) (i : ℕ), st.hasPrev = true →
        finalValueAt st bins i =
          st.smoothedRow i * TEMPORAL_SMOOTHING +
            blendedAt bins i * (1 - TEMPORAL_SMOOTHING)) ∧
    (∀ (v x0 : ℝ) (n : ℕ),
        |temporalIter v x0 (n + 1) - v| =
          TEMPORAL_SMOOTHING * |temporalIter v x0 n - v|) ∧
    (∀ (v x0 : ℝ) (n : ℕ),
        |temporalIter v x0 n - v| = TEMPORAL_SMOOTHING ^ n * |x0 - v|) ∧
    (∀ (v x0 ε : ℝ), 0 < ε → ∃ N, ∀ n, N ≤ n → |temporalIter v x0 n - v| < ε) := by
  refine ⟨?_, ?_, temporalIter_step_dist, temporalIter_geometric, ?_⟩
  · intro st bins i h
    unfold finalValueAt
    rw [h]
    rfl
  · intro st bins i h
    unfold finalValueAt temporalNext
    rw [h]
    rfl
  · intro v x0 ε hε
    have hT0 : (0 : ℝ) ≤ TEMPORAL_SMOOTHING := by norm_num [TEMPORAL_SMOOTHING]
    have hT1 : TEMPORAL_SMOOTHING < 1 := by norm_num [TEMPORAL_SMOOTHING]
    rcases eq_or_lt_of_le (abs_nonneg (x0 - v)) with h0 | hpos
    · refine ⟨0, fun n _ => ?_⟩
      rw [temporalIter_geometric, ← h0, mul_zero]
      exact hε
    · obtain ⟨N, hN⟩ := exists_pow_lt_of_lt_one
        (div_pos hε (by linarith : (0:ℝ) < |x0 - v| + 1)) hT1
      refine ⟨N, fun n hn => ?_⟩
      rw [temporalIter_geometric]
      have h1 : TEMPORAL_SMOOTHING ^ n ≤ TEMPORAL_SMOOTHING ^ N :=
        pow_le_pow_of_le_one hT0 (le_of_lt hT1) hn
      have h2 : TEMPORAL_SMOOTHING ^ n * |x0 - v| ≤ TEMPORAL_SMOOTHING ^ N * |x0 - v| :=
        mul_le_mul_of_nonneg_right h1 (le_of_lt hpos)
      have h3 : TEMPORAL_SMOOTHING ^ N * |x0 - v| < (ε / (|x0 - v| + 1)) * |x0 - v| :=
        mul_lt_mul_of_pos_right hN hpos
      have h4 : (ε / (|x0 - v| + 1)) * |x0 - v| < ε := by
        rw [div_mul_eq_mul_div, div_lt_iff₀ (by linarith : (0:ℝ) < |x0 - v| + 1)]
        nlinarith
      linarith

theorem claim_C6_witness :
    (0 : ℝ) < 1 / 2 ∧ ∃ N, ∀ n, N ≤ n → |temporalIter 1 0 n - 1| < 1 / 2 :=
  ⟨by norm_num, claim_C6_temporal_convergence.2.2.2.2 1 0 (1 / 2) (by norm_num)⟩

end Spectro

namespace Spectro

/-! ### C7: the spatial filter on an impulse frame -/

theorem blendedAt_impulse (b : ℕ) :
    blendedAt (impulse b) b =
      1 * (1 - FREQUENCY_SMOOTH_MIX) + tapSum b * FREQUENCY_SMOOTH_MIX := by
  unfold blendedAt
  have h1 : impulse b b = 1 := by
    unfold impulse
    rw [if_pos rfl]
  rw [h1]
  congr 1
  unfold smoothedAt tapSum
  congr 1
  refine Finset.sum_congr rfl fun k hk => ?_
  unfold impulse
  by_cases h : clampIdx ((b : ℤ) + k - kernelRadius) = b
  · rw [if_pos h, if_pos h, one_mul]
  · rw [if_neg h, if_neg h, zero_mul]

theorem tapSum_interior (b : ℕ) (hb0 : 0 < b) (hb1 : b + 1 < FREQUENCY_BINS) :
    tapSum b = 0.18 := by
  have hb1' : b + 1 < 256 := by
    unfold FREQUENCY_BINS at hb1
    exact hb1
  unfold tapSum
  rw [show FREQUENCY_SMOOTH_KERNEL.length = 7 from rfl,
    show kernelRadius = 3 from rfl]
  simp only [Finset.sum_range_succ, Finset.sum_range_zero]
  rw [if_neg (by unfold clampIdx FREQUENCY_BINS; split_ifs <;> omega),
    if_neg (by unfold clampIdx FREQUENCY_BINS; split_ifs <;> omega),
    if_neg (by unfold clampIdx FREQUENCY_BINS; split_ifs <;> omega),
    if_pos (by unfold clampIdx FREQUENCY_BINS; split_ifs <;> omega),
    if_neg (by unfold clampIdx FREQUENCY_BINS; split_ifs <;> omega),
    if_neg (by unfold clampIdx FREQUENCY_BINS; split_ifs <;> omega),
    if_neg (by unfold clampIdx FREQUENCY_BINS; split_ifs <;> omega)]
  norm_num [kernelAt, FREQUENCY_SMOOTH_KERNEL]

/-- C7 counterexample: the kernel `[0.03,0.08,0.15,0.18,0.15,0.08,0.03]` is
not normalized — its coefficients sum to `0.7`, not `1`. -/
theorem claim_C7_counterexample : FREQUENCY_SMOOTH_KERNEL.sum ≠ 1 := by
  norm_num [FREQUENCY_SMOOTH_KERNEL]

/-- C7 (amended): the spatial filter is a 1D convolution across the frequency
axis with the fixed odd-length kernel `[0.03,0.08,0.15,0.18,0.15,0.08,0.03]` —
whose coefficients sum to `0.7`, i.e. it is not normalized — with clamp-to-edge
for out-of-range taps, blended 90% filtered / 10% raw.  An impulse frame
(one bin = 1) yields at the impulse bin `raw * (1 - mix) + S * mix`, where `S`
(`tapSum`) is the total kernel weight landing on that bin after clamping:
`S = 0.18` (the center tap) at interior bins, and `S = 0.03+0.08+0.15+0.18`
resp. `0.18+0.15+0.08+0.03` at bin `0` resp. the last bin (clamp-to-edge). -/
theorem claim_C7_amended :
    FREQUENCY_SMOOTH_KERNEL.sum = 0.7 ∧
    (∀ b : ℕ, blendedAt (impulse b) b =
        1 * (1 - FREQUENCY_SMOOTH_MIX) + tapSum b * FREQUENCY_SMOOTH_MIX) ∧
    (∀ b : ℕ, 0 < b → b + 1 < FREQUENCY_BINS → tapSum b = 0.18) ∧
    tapSum 0 = 0.03 + 0.08 + 0.15 + 0.18 ∧
    tapSum (FREQUENCY_BINS - 1) = 0.18 + 0.15 + 0.08 + 0.03 := by
  refine ⟨by norm_num [FREQUENCY_SMOOTH_KERNEL], blendedAt_impulse, tapSum_interior, ?_, ?_⟩
  · unfold tapSum
    rw [show FREQUENCY_SMOOTH_KERNEL.length = 7 from rfl,
      show kernelRadius = 3 from rfl]
    simp only [Finset.sum_range_succ, Finset.sum_range_zero]
    norm_num [clampIdx, kernelAt, FREQUENCY_SMOOTH_KERNEL, FREQUENCY_BINS]
  · unfold tapSum
    rw [show FREQUENCY_SMOOTH_KERNEL.length = 7 from rfl,
      show kernelRadius = 3 from rfl,
      show FREQUENCY_BINS - 1 = 255 from rfl]
    simp only [Finset.sum_range_succ, Finset.sum_range_zero]
    norm_num [clampIdx, kernelAt, FREQUENCY_SMOOTH_KERNEL, FREQUENCY_BINS]
    norm_num [show Int.toNat 252 = 252 from rfl, show Int.toNat 253 = 253 from rfl,
      show Int.toNat 254 = 254 from rfl, show Int.toNat 255 = 255 from rfl]

theorem claim_C7_witness :
    blendedAt (impulse 5) 5 =
      1 * (1 - FREQUENCY_SMOOTH_MIX) + tapSum 5 * FREQUENCY_SMOOTH_MIX ∧
    (0 < 5 ∧ 5 + 1 < FREQUENCY_BINS ∧ tapSum 5 = 0.18) :=
  ⟨claim_C7_amended.2.1 5,
    ⟨by omega, by unfold FREQUENCY_BINS; omega,
      claim_C7_amended.2.2.1 5 (by omega) (by unfold FREQUENCY_BINS; omega)⟩⟩

end Spectro

namespace Spectro

/-! ### C9: what the visual tick does and does not depend on -/

theorem cutoffBin_44100 : cutoffBin 44100 = 10 := by
  unfold cutoffBin LOW_FREQUENCY_CUTOFF_HZ fftSize FREQUENCY_BINS
  have h1 : (200 : ℝ) / ((44100 : ℝ) / ((2048 : ℕ) : ℝ)) = 4096 / 441 := by
    push_cast
    norm_num
  rw [h1]
  have h2 : ⌈(4096 : ℝ) / 441⌉ = 10 := by
    rw [Int.ceil_eq_iff]
    constructor <;> norm_num
  rw [h2]
  rfl

/-- C9 counterexample: the per-tick frame computation is not independent of
what was computed on previous ticks.  At the same wall time (`0`) and the same
asset (5000 zero samples at 44100 Hz), two different analyzer smoothing states
(`prevFrequencyDataRef` all `0` vs. all `255`) produce different output frames:
bin 10 differs by at least `⌊255 * SMOOTHING_CONSTANT⌋ = 38` byte levels. -/
theorem claim_C9_counterexample :
    (computeFrequencyData (List.replicate 5000 (0 : ℝ)) 44100 0 (fun _ => 0) []).2 ≠
      (computeFrequencyData (List.replicate 5000 (0 : ℝ)) 44100 0 (fun _ => 255) []).2 := by
  intro heq
  have hstart : startIndexOf (List.replicate 5000 (0 : ℝ)) 44100 0 = 0 :=
    startIndexOf_time_zero _ _
  have hguard : ¬ ((List.replicate 5000 (0 : ℝ)).length ≤
      startIndexOf (List.replicate 5000 (0 : ℝ)) 44100 0 + fftSize) := by
    rw [hstart, List.length_replicate]
    norm_num [fftSize]
  have hframe : ∀ prev : ℕ → ℝ,
      (computeFrequencyData (List.replicate 5000 (0 : ℝ)) 44100 0 prev []).2 =
        (List.range FREQUENCY_BINS).map fun k =>
          if k < cutoffBin 44100 then 0
          else (⌊smoothedByteAt (List.replicate 5000 (0 : ℝ))
            (startIndexOf (List.replicate 5000 (0 : ℝ)) 44100 0) k prev⌋).toNat := by
    intro prev
    unfold computeFrequencyData
    rw [if_neg hguard]
  rw [hframe, hframe] at heq
  have h10 := congrArg (fun l => l.getD 10 0) heq
  simp only at h10
  rw [getD_map_range _ _ (show 10 < FREQUENCY_BINS by unfold FREQUENCY_BINS; omega),
    getD_map_range _ _ (show 10 < FREQUENCY_BINS by unfold FREQUENCY_BINS; omega),
    cutoffBin_44100, if_neg (by omega), if_neg (by omega), hstart] at h10
  revert h10
  unfold smoothedByteAt
  set bv := byteValueAt (List.replicate 5000 (0 : ℝ)) 0 10 with hbv
  have hbv0 : 0 ≤ bv := byteValueAt_nonneg _ _ _
  have e1 : (0 : ℝ) * SMOOTHING_CONSTANT + bv * (1 - SMOOTHING_CONSTANT) =
      bv * (1 - SMOOTHING_CONSTANT) := by ring
  have e2 : (255 : ℝ) * SMOOTHING_CONSTANT + bv * (1 - SMOOTHING_CONSTANT) =
      bv * (1 - SMOOTHING_CONSTANT) + 38.25 := by
    norm_num [SMOOTHING_CONSTANT]
    ring
  rw [e1, e2]
  intro h10
  have hfl : ⌊bv * (1 - SMOOTHING_CONSTANT)⌋ + 38 ≤
      ⌊bv * (1 - SMOOTHING_CONSTANT) + 38.25⌋ := by
    have step1 : ⌊bv * (1 - SMOOTHING_CONSTANT) + (38 : ℤ)⌋ ≤
        ⌊bv * (1 - SMOOTHING_CONSTANT) + 38.25⌋ :=
      Int.floor_le_floor (by push_cast; linarith)
    rw [Int.floor_add_int] at step1
    exact step1
  have hfl0 : 0 ≤ ⌊bv * (1 - SMOOTHING_CONSTANT)⌋ := by
    apply Int.floor_nonneg.mpr
    have : (0 : ℝ) ≤ 1 - SMOOTHING_CONSTANT := by norm_num [SMOOTHING_CONSTANT]
    exact mul_nonneg hbv0 this
  omega

/-- C9 (amended): the per-tick visual computation is a pure function of the
wall-clock time, the decoded asset and the pipeline's own smoothing state, and
it is independent of the audio engine's gesture-gate state: `visualTick` maps
equal times, assets and pipeline states to equal results for every pair of
engine states (the source path never consults the engine).  It is, however,
not independent of the previous tick's smoothing state (see the
counterexample). -/
theorem claim_C9_engine_independence :
    ∀ (e₁ e₂ : EngineState) (time : ℝ) (samples : List ℝ) (sr : ℝ)
      (st : PipelineState),
      visualTick e₁ time samples sr st = visualTick e₂ time samples sr st :=
  fun _ _ _ _ _ _ => rfl

end Spectro

namespace P3

/-! ### C8: cross-fade is exact linear interpolation and ends on `to` itself -/

/-- C8: layer-set cross-fading is exact linear interpolation — blend progress
`{0, 1/2, 1}` between `from = [0]` and `to = [10]` yields `{0, 5, 10}` — and
whenever the elapsed time reaches the blend duration (`progress ≥ 1`) the
animation step yields exactly the transition's `to` matrix itself (not a
recomputed value) and self-terminates (no transition remains). -/
theorem claim_C8_blend :
    blendSurfaces [[[0]]] [[[10]]] 0 = [[[0]]] ∧
    blendSurfaces [[[0]]] [[[10]]] (1 / 2) = [[[5]]] ∧
    blendSurfaces [[[0]]] [[[10]]] 1 = [[[10]]] ∧
    (∀ (tr : Transition) (now : ℝ), BLEND_DURATION_MS ≤ now - tr.start →
        stepBlend tr now = (tr.dst, none)) := by
  refine ⟨?_, ?_, ?_, ?_⟩
  · norm_num [blendSurfaces, List.mapIdx_cons]
  · norm_num [blendSurfaces, List.mapIdx_cons]
  · norm_num [blendSurfaces, List.mapIdx_cons]
  · intro tr now h
    have hdur : (0 : ℝ) < BLEND_DURATION_MS := by norm_num [BLEND_DURATION_MS]
    have hprog : (1 : ℝ) ≤ min ((now - tr.start) / BLEND_DURATION_MS) 1 :=
      le_min ((le_div_iff₀ hdur).mpr (by linarith)) le_rfl
    unfold stepBlend
    rw [if_pos hprog]

theorem claim_C8_witness :
    BLEND_DURATION_MS ≤ (600 : ℝ) - (0 : ℝ) ∧
    stepBlend ⟨[], [[[1]]], 0⟩ 600 = ([[[1]]], none) := by
  have h : BLEND_DURATION_MS ≤ (600 : ℝ) - (0 : ℝ) := by norm_num [BLEND_DURATION_MS]
  exact ⟨h, claim_C8_blend.2.2.2 ⟨[], [[[1]]], 0⟩ 600 h⟩

end P3

/-! ### Fold-max helpers -/

theorem init_le_foldl_max (l : List ℝ) (a : ℝ) : a ≤ l.foldl max a := by
  induction l generalizing a with
  | nil => exact le_refl a
  | cons x t ih =>
    rw [List.foldl_cons]
    exact le_trans (le_max_left a x) (ih (max a x))

theorem le_foldl_max (l : List ℝ) (x : ℝ) : ∀ a, x ∈ l → x ≤ l.foldl max a := by
  induction l with
  | nil =>
    intro a h
    cases h
  | cons y t ih =>
    intro a h
    rw [List.foldl_cons]
    rcases List.mem_cons.mp h with rfl | hmem
    · exact le_trans (le_max_right a x) (init_le_foldl_max t (max a x))
    · exact ih (max a y) hmem

theorem foldl_max_mem_or_init (l : List ℝ) (a : ℝ) :
    l.foldl max a = a ∨ l.foldl max a ∈ l := by
  induction l generalizing a with
  | nil => exact Or.inl rfl
  | cons x t ih =>
    rw [List.foldl_cons]
    rcases ih (max a x) with h | h
    · rcases max_choice a x with h2 | h2
      · exact Or.inl (h.trans h2)
      · right
        rw [h, h2]
        exact List.mem_cons_self x t
    · exact Or.inr (List.mem_cons_of_mem x h)

namespace P3

/-! ### C10: window-relative normalisation of the contour surfaces -/

theorem magAt_nonneg (seg : List ℝ) (sr : ℝ) (bin : ℕ) : 0 ≤ magAt seg sr bin :=
  Real.sqrt_nonneg _

theorem sliceRow_nonneg (layer : List ℝ) (sr : ℝ) (sliceLength slice : ℕ) :
    ∀ x ∈ sliceRow layer sr sliceLength slice, 0 ≤ x := by
  intro x hx
  unfold sliceRow at hx
  by_cases hc : layer.length ≤ slice * sliceLength
  · rw [if_pos hc] at hx
    rw [List.eq_of_mem_replicate hx]
  · rw [if_neg hc] at hx
    unfold computeSpectrumSegment at hx
    obtain ⟨bin, _, rfl⟩ := List.mem_map.mp hx
    exact magAt_nonneg _ _ _

theorem raw_val_nonneg (payload : AudioPayload) (startSample windowSamples : ℕ) :
    ∀ m ∈ allVals (rawSurfaces payload startSample windowSamples), 0 ≤ m := by
  intro m hm
  unfold allVals at hm
  obtain ⟨row, hrow, hmrow⟩ := List.mem_flatten.mp hm
  obtain ⟨surface, hsurf, hrowsurf⟩ := List.mem_flatten.mp hrow
  unfold rawSurfaces at hsurf
  by_cases hg : min payload.samples.length (startSample + windowSamples) ≤ startSample
  · rw [if_pos hg] at hsurf
    cases hsurf
  · rw [if_neg hg] at hsurf
    obtain ⟨si, _, hsome⟩ := List.mem_filterMap.mp hsurf
    by_cases he : (layerOf ((payload.samples.drop startSample).take
        (min payload.samples.length (startSample + windowSamples) - startSample))
        (max 1 (((payload.samples.drop startSample).take
          (min payload.samples.length (startSample + windowSamples) - startSample)).length /
            SURFACE_COUNT)) si).isEmpty
    · rw [if_pos he] at hsome
      cases hsome
    · rw [if_neg he] at hsome
      obtain rfl := Option.some_injective _ hsome
      unfold surfaceOf at hrowsurf
      obtain ⟨slice, _, rfl⟩ := List.mem_map.mp hrowsurf
      exact sliceRow_nonneg _ _ _ _ m hmrow

theorem allVals_map (f : ℝ → ℝ) (s : List SurfaceMatrix) :
    allVals (s.map fun m => m.map fun row => row.map f) = (allVals s).map f := by
  unfold allVals
  rw [show (fun m : List (List ℝ) => m.map fun row => row.map f) =
      List.map (List.map f) from rfl]
  rw [← List.map_flatten, ← List.map_flatten]

/-- C10: whenever at least one computed magnitude of the current window is
nonzero (`0 < globalMaxOf …`), `extractSurfacesForWindow` returns surfaces
whose raw magnitudes are all non-negative and whose normalized values all lie
in `[0, 1]`, with global maximum exactly `1`: each value is the raw magnitude
divided by the window's own maximum and raised to `0.85`, so every displayed
window is rescaled relative to its own loudest component. -/
theorem claim_C10_window_normalisation (payload : AudioPayload)
    (startSample windowSamples : ℕ)
    (hpos : 0 < globalMaxOf payload startSample windowSamples) :
    (∀ m ∈ allVals (rawSurfaces payload startSample windowSamples), 0 ≤ m) ∧
    (∀ v ∈ allVals (extractSurfacesForWindow payload startSample windowSamples),
        0 ≤ v ∧ v ≤ 1) ∧
    (∃ v ∈ allVals (extractSurfacesForWindow payload startSample windowSamples),
        v = 1) := by
  have hraw := raw_val_nonneg payload startSample windowSamples
  have hne : globalMaxOf payload startSample windowSamples ≠ 0 := ne_of_gt hpos
  have hext : allVals (extractSurfacesForWindow payload startSample windowSamples) =
      (allVals (rawSurfaces payload startSample windowSamples)).map
        fun v => (v / globalMaxOf payload startSample windowSamples) ^ (0.85 : ℝ) := by
    unfold extractSurfacesForWindow
    rw [if_neg hne, allVals_map]
  have hle : ∀ m ∈ allVals (rawSurfaces payload startSample windowSamples),
      m ≤ globalMaxOf payload startSample windowSamples := by
    intro m hm
    exact le_foldl_max _ m 0 hm
  refine ⟨hraw, ?_, ?_⟩
  · intro v hv
    rw [hext] at hv
    obtain ⟨m, hm, rfl⟩ := List.mem_map.mp hv
    have h0 : 0 ≤ m / globalMaxOf payload startSample windowSamples :=
      div_nonneg (hraw m hm) (le_of_lt hpos)
    have h1 : m / globalMaxOf payload startSample windowSamples ≤ 1 :=
      (div_le_one hpos).mpr (hle m hm)
    exact ⟨Real.rpow_nonneg h0 _, Real.rpow_le_one h0 h1 (by norm_num)⟩
  · rcases foldl_max_mem_or_init
        (allVals (rawSurfaces payload startSample windowSamples)) 0 with h | h
    · exact absurd h (by unfold globalMaxOf at hne; exact hne)
    · refine ⟨(globalMaxOf payload startSample windowSamples /
          globalMaxOf payload startSample windowSamples) ^ (0.85 : ℝ), ?_, ?_⟩
      · rw [hext]
        exact List.mem_map.mpr ⟨globalMaxOf payload startSample windowSamples, h, rfl⟩
      · rw [div_self hne, Real.one_rpow]

end P3

namespace P3

/-! ### C10 witness: the impulse payload has a nonzero window maximum -/

theorem wSamples_length : wSamples.length = 195 := by
  unfold wSamples
  rw [List.length_append, List.length_append, List.length_replicate,
    List.length_replicate, List.length_cons, List.length_nil]

theorem seg0_length : seg0.length = 65 := by
  unfold seg0
  rw [List.length_append, List.length_append, List.length_replicate,
    List.length_cons, List.length_nil]

theorem rot_zero_one_succ (n : ℕ) :
    rot 0 1 (n + 1) = (-(rot 0 1 n).2, (rot 0 1 n).1) := by
  simp only [rot]
  norm_num

theorem rot_zero_one_four (n : ℕ) : rot 0 1 (n + 4) = rot 0 1 n := by
  rw [show n + 4 = n + 3 + 1 by omega, rot_zero_one_succ,
    show n + 3 = n + 2 + 1 by omega, rot_zero_one_succ,
    show n + 2 = n + 1 + 1 by omega, rot_zero_one_succ, rot_zero_one_succ]
  simp

theorem rot_zero_one_32 : rot 0 1 32 = (1, 0) := by
  rw [show (32 : ℕ) = 28 + 4 by omega, rot_zero_one_four,
    show (28 : ℕ) = 24 + 4 by omega, rot_zero_one_four,
    show (24 : ℕ) = 20 + 4 by omega, rot_zero_one_four,
    show (20 : ℕ) = 16 + 4 by omega, rot_zero_one_four,
    show (16 : ℕ) = 12 + 4 by omega, rot_zero_one_four,
    show (12 : ℕ) = 8 + 4 by omega, rot_zero_one_four,
    show (8 : ℕ) = 4 + 4 by omega, rot_zero_one_four,
    show (4 : ℕ) = 0 + 4 by omega, rot_zero_one_four]
  rfl

theorem seg0_getD (i : ℕ) : seg0.getD i 0 = if i = 32 then 1 else 0 := by
  have h33 : (List.replicate 32 (0 : ℝ) ++ [1]).length = 33 := by
    rw [List.length_append, List.length_replicate, List.length_cons, List.length_nil]
  unfold seg0
  by_cases h32 : i = 32
  · subst h32
    rw [if_pos rfl, List.getD_eq_getElem?_getD,
      List.getElem?_append_left (by rw [h33]; omega),
      List.getElem?_append_right (by rw [List.length_replicate]),
      List.length_replicate]
    rfl
  · rw [if_neg h32, List.getD_eq_getElem?_getD]
    rcases lt_or_ge i 32 with hlt | hge
    · rw [List.getElem?_append_left (by rw [h33]; omega),
        List.getElem?_append_left (by rw [List.length_replicate]; omega),
        List.getElem?_replicate, if_pos hlt]
      rfl
    · rcases lt_or_ge i 65 with h65 | h65
      · rw [List.getElem?_append_right (by rw [h33]; omega), h33,
          List.getElem?_replicate, if_pos (by omega)]
        rfl
      · rw [List.getElem?_eq_none]
        · rfl
        · rw [List.length_append, h33, List.length_replicate]
          omega

theorem hann_65_32 : applyHannWindow 65 32 = 1 := by
  unfold applyHannWindow
  rw [if_neg (by omega)]
  have h : 2 * Real.pi * ((32 : ℕ) : ℝ) / (((65 : ℕ) : ℝ) - 1) = Real.pi := by
    push_cast
    rw [show ((65 : ℝ) - 1) = 64 by norm_num,
      div_eq_iff (by norm_num : (64 : ℝ) ≠ 0)]
    ring
  rw [h, Real.cos_pi]
  norm_num

theorem angle_bin0 : 2 * Real.pi * binFreq 240 0 / 240 = Real.pi / 2 := by
  unfold binFreq MIN_FREQ MAX_FREQ FREQ_BINS
  push_cast
  norm_num
  ring

theorem mag_seg0_bin0 : magAt seg0 240 0 = 1 := by
  unfold magAt
  dsimp only
  rw [angle_bin0, Real.cos_pi_div_two, Real.sin_pi_div_two, seg0_length]
  have hre : (∑ i ∈ Finset.range 65,
      seg0.getD i 0 * applyHannWindow 65 i * (rot 0 1 i).1) = 1 := by
    rw [Finset.sum_eq_single_of_mem 32 (Finset.mem_range.mpr (by omega))]
    · rw [seg0_getD, if_pos rfl, hann_65_32, rot_zero_one_32]
      norm_num
    · intro b _ hb
      rw [seg0_getD, if_neg hb, zero_mul, zero_mul]
  have him : (∑ i ∈ Finset.range 65,
      seg0.getD i 0 * applyHannWindow 65 i * (rot 0 1 i).2) = 0 := by
    rw [Finset.sum_eq_single_of_mem 32 (Finset.mem_range.mpr (by omega))]
    · rw [seg0_getD, if_pos rfl, hann_65_32, rot_zero_one_32]
      norm_num
    · intro b _ hb
      rw [seg0_getD, if_neg hb, zero_mul, zero_mul]
  rw [hre, him]
  norm_num [Real.sqrt_one]

theorem wSamples_take_65 : wSamples.take 65 = seg0 := by
  have h33 : (List.replicate 32 (0 : ℝ) ++ [1]).length = 33 := by
    rw [List.length_append, List.length_replicate, List.length_cons, List.length_nil]
  unfold wSamples seg0
  rw [List.take_append_eq_append_take, List.take_of_length_le (by rw [h33]; omega),
    h33, show (65 - 33 : ℕ) = 32 by omega, List.take_replicate,
    show min 32 162 = 32 by omega]

theorem layerOf_wSamples_0 : layerOf wSamples 65 0 = seg0 := by
  unfold layerOf
  rw [Nat.zero_mul, List.drop_zero, Nat.zero_add, Nat.sub_zero, wSamples_length,
    show min 65 195 = 65 by omega, wSamples_take_65]

theorem sliceRow_seg0_0 : sliceRow seg0 240 2 0 = computeSpectrumSegment seg0 240 := by
  have htake : seg0.take 65 = seg0 := by
    rw [← seg0_length]
    exact List.take_length _
  unfold sliceRow
  rw [Nat.zero_mul, if_neg (by rw [seg0_length]; omega)]
  dsimp only
  rw [List.drop_zero, Nat.sub_zero, seg0_length,
    show max 64 (min WINDOW_SIZE 65) = 65 by norm_num [WINDOW_SIZE], htake,
    seg0_length, Nat.sub_self, List.replicate_zero, List.append_nil]

theorem surface_mem_raw : surfaceOf seg0 240 ∈ rawSurfaces wPayload 0 195 := by
  unfold rawSurfaces
  have hsamples : wPayload.samples = wSamples := rfl
  have hsr : wPayload.sampleRate = 240 := rfl
  rw [hsamples, hsr, wSamples_length]
  rw [if_neg (by omega)]
  have hwind : (wSamples.drop 0).take (min 195 (0 + 195) - 0) = wSamples := by
    rw [List.drop_zero, show min 195 (0 + 195) - 0 = 195 by omega, ← wSamples_length,
      List.take_length]
  rw [hwind]
  dsimp only
  rw [wSamples_length,
    show max 1 (195 / SURFACE_COUNT) = 65 by norm_num [SURFACE_COUNT]]
  refine List.mem_filterMap.mpr ⟨0, List.mem_range.mpr (by norm_num [SURFACE_COUNT]), ?_⟩
  simp only [layerOf_wSamples_0]
  rw [if_neg]
  rw [List.isEmpty_iff]
  intro hnil
  have := seg0_length
  rw [hnil] at this
  simp at this

theorem one_mem_raw_vals : (1 : ℝ) ∈ allVals (rawSurfaces wPayload 0 195) := by
  unfold allVals
  refine List.mem_flatten.mpr ⟨computeSpectrumSegment seg0 240, ?_, ?_⟩
  · refine List.mem_flatten.mpr ⟨surfaceOf seg0 240, surface_mem_raw, ?_⟩
    unfold surfaceOf
    rw [seg0_length, show max 1 (65 / TIME_SLICES) = 2 by norm_num [TIME_SLICES]]
    exact List.mem_map.mpr ⟨0, List.mem_range.mpr (by norm_num [TIME_SLICES]),
      sliceRow_seg0_0⟩
  · unfold computeSpectrumSegment
    exact List.mem_map.mpr ⟨0, List.mem_range.mpr (by norm_num [FREQ_BINS]),
      mag_seg0_bin0⟩

theorem wPayload_globalMax_pos : 0 < globalMaxOf wPayload 0 195 := by
  have h1 : (1 : ℝ) ≤ globalMaxOf wPayload 0 195 := by
    unfold globalMaxOf
    exact le_foldl_max _ 1 0 one_mem_raw_vals
  linarith

theorem claim_C10_witness :
    0 < globalMaxOf wPayload 0 195 ∧
    (∃ v ∈ allVals (extractSurfacesForWindow wPayload 0 195), v = 1) :=
  ⟨wPayload_globalMax_pos,
    (claim_C10_window_normalisation wPayload 0 195 wPayload_globalMax_pos).2.2⟩

end P3
